import Mathlib

/-!
# `common/git/project_git_utils.cpp` (namespace `KIGIT`)

A shallow embedding of `PROJECT_GIT_UTILS`: the three backend delegations and the four
queries `GetCurrentHash`, `GetLatestTag`, `GetCommitsSinceLatestTag`, `GetGitRevision`.

The version-control library is external to the file.  Its answers are parameters of the
embedding: a `World` gives, for every request index, what the library would answer (`GitLib`).
Every fallible library request advances the request index by one, so a world can make any
request fail independently of the others; a fixed repository is the constant world
`fun _ => lib`.  Handles handed out by the library (repository, reference, object, walker,
tag-name array) are tracked in `LibState`, so that acquisition and release are observable.

`wxString` is `String`; `TO_UTF8` / `wxString::FromUTF8` are the identity on it, and
`wxString::Format` with `%s` is concatenation.  `git_time_t` values are integers; the `int`
counter of `GetCommitsSinceLatestTag` is an integer reduced to 32 bits after each increment.
-/

namespace KIGIT

/-! ## Data model of the library -/

/-- Object id of the library: 20 raw bytes (`unsigned char id[20]`). -/
structure git_oid where
  id : List (Fin 256)
  size : id.length = 20
deriving DecidableEq

/-- Object types (`git_object_t`) that the file mentions. -/
inductive git_object_t where
  | GIT_OBJECT_ANY
  | GIT_OBJECT_COMMIT
  | GIT_OBJECT_TREE
  | GIT_OBJECT_BLOB
  | GIT_OBJECT_TAG
deriving DecidableEq

/-- An object of the object database, with what the accessors used by the file read from it:
`git_commit_time` (and the parent ids) of a commit, `git_tag_target_id` of an annotated tag. -/
inductive git_object where
  | commit (time : Int) (parents : List git_oid)
  | tag (target_id : git_oid)
  | tree
  | blob
deriving DecidableEq

/-- A reference; `target` is what `git_reference_target` returns (null for a symbolic one). -/
structure git_reference where
  target : Option git_oid
deriving DecidableEq

/-- Identity of an opened repository. -/
abbrev git_repository := Nat

/-- Kinds of library handle the queries acquire. -/
inductive HandleKind where
  | repository
  | reference
  | object
  | revwalk
  | strarray
deriving DecidableEq

/-- A handle handed out by the library. -/
structure Handle where
  kind : HandleKind
  id : Nat
deriving DecidableEq

/-- What the library and the git backend answer at one instant. -/
structure GitLib where
  /-- Backend `GetRepositoryForFile`: the repository of a file, or null. -/
  GetRepositoryForFile : String → Option git_repository
  /-- Backend `CreateBranch`: its return code. -/
  CreateBranch : Option (Handle × git_repository) → String → Int
  /-- Backend `RemoveVCS`: return value, and the values it leaves in `aRepo` and `*aErrors`. -/
  RemoveVCS : Option (Handle × git_repository) → String → Bool → Option String →
    Bool × Option (Handle × git_repository) × Option String
  /-- Answer of `git_repository_head`: the resolved HEAD reference, `none` on a non-zero return. -/
  git_repository_head : git_repository → Option git_reference
  /-- Answer of `git_tag_list`: the tag names in enumeration order, `none` on a non-zero return. -/
  git_tag_list : git_repository → Option (List String)
  /-- Answer of `git_reference_lookup` by full reference name. -/
  git_reference_lookup : git_repository → String → Option git_reference
  /-- Object database: answer of `git_object_lookup` with `GIT_OBJECT_ANY`. -/
  odb : git_repository → git_oid → Option git_object
  /-- Whether `git_revwalk_new` returns 0. -/
  git_revwalk_new : git_repository → Bool
  /-- Ids that successive `git_revwalk_next` calls return with code 0, up to the first
  non-zero return, on a walker onto which the given id was pushed. -/
  git_revwalk : git_repository → git_oid → List git_oid

/-- Library answers per request index. -/
abbrev World := Nat → GitLib

/-! ## Handles -/

/-- Library bookkeeping: request index, the handles that are open, and the logs of all
acquisitions and releases (most recent first). -/
structure LibState where
  clock : Nat
  live : List Handle
  acquired : List Handle
  released : List Handle

/-- A request that was answered without handing out a handle. -/
def LibState.tick (s : LibState) : LibState :=
  { s with clock := s.clock + 1 }

/-- A request that was answered with a new handle of kind `k`; its id is the request index. -/
def LibState.opened (k : HandleKind) (s : LibState) : LibState :=
  { clock := s.clock + 1, live := ⟨k, s.clock⟩ :: s.live,
    acquired := ⟨k, s.clock⟩ :: s.acquired, released := s.released }

/-- A fallible request that hands out a handle of kind `k` on success. -/
def LibState.answer {α : Type} (k : HandleKind) (r : Option α) (s : LibState) :
    Option (Handle × α) × LibState :=
  match r with
  | some a => (some (⟨k, s.clock⟩, a), s.opened k)
  | none => (none, s.tick)

/-- Release of a handle (`git_*_free`, `git_strarray_dispose`). -/
def LibState.release (h : Handle) (s : LibState) : LibState :=
  { s with live := s.live.erase h, released := h :: s.released }

/-! ## Library primitives -/

def git_object_type : git_object → git_object_t
  | .commit _ _ => .GIT_OBJECT_COMMIT
  | .tag _ => .GIT_OBJECT_TAG
  | .tree => .GIT_OBJECT_TREE
  | .blob => .GIT_OBJECT_BLOB

/-- Accessor `git_commit_time`; only called on objects of type commit. -/
def git_commit_time : git_object → Int
  | .commit time _ => time
  | _ => 0

def git_reference_target (ref : git_reference) : Option git_oid := ref.target

def git_oid_equal (a b : git_oid) : Bool := decide (a = b)

def git_repository_head (w : World) (repo : git_repository) (s : LibState) :
    Option (Handle × git_reference) × LibState :=
  s.answer .reference ((w s.clock).git_repository_head repo)

def git_tag_list (w : World) (repo : git_repository) (s : LibState) :
    Option (Handle × List String) × LibState :=
  s.answer .strarray ((w s.clock).git_tag_list repo)

def git_reference_lookup (w : World) (repo : git_repository) (name : String) (s : LibState) :
    Option (Handle × git_reference) × LibState :=
  s.answer .reference ((w s.clock).git_reference_lookup repo name)

/-- Lookup in the object database; with a type other than `GIT_OBJECT_ANY` the lookup fails
unless the object has that type. -/
def git_object_lookup (w : World) (repo : git_repository) (oid : git_oid) (type : git_object_t)
    (s : LibState) : Option (Handle × git_object) × LibState :=
  s.answer .object
    (((w s.clock).odb repo oid).filter
      (fun obj => decide (type = .GIT_OBJECT_ANY ∨ git_object_type obj = type)))

def git_revwalk_new (w : World) (repo : git_repository) (s : LibState) :
    Option (Handle × Unit) × LibState :=
  s.answer .revwalk (if (w s.clock).git_revwalk_new repo then some () else none)

/-- Pushing the start id onto the walker (return code ignored by the caller); the result is the sequence
the walker will then yield. -/
def git_revwalk_push (w : World) (repo : git_repository) (oid : git_oid) (s : LibState) :
    List git_oid × LibState :=
  ((w s.clock).git_revwalk repo oid, s.tick)

def git_reference_free (h : Handle) (s : LibState) : LibState := s.release h
def git_repository_free (h : Handle) (s : LibState) : LibState := s.release h
def git_object_free (h : Handle) (s : LibState) : LibState := s.release h
def git_revwalk_free (h : Handle) (s : LibState) : LibState := s.release h
def git_strarray_dispose (h : Handle) (s : LibState) : LibState := s.release h

/-- Lowercase hexadecimal digit of a nibble. -/
def hexDigit (d : Nat) : Char :=
  if d < 10 then Char.ofNat (48 + d) else Char.ofNat (87 + d)

/-- The 40 hexadecimal characters of an id (`git_oid_fmt`). -/
def git_oid_fmt (oid : git_oid) : List Char :=
  oid.id.flatMap (fun b => [hexDigit (b.val / 16), hexDigit (b.val % 16)])

/-- Formatter `git_oid_tostr (buf, n, oid)`: writes at most `n - 1` hexadecimal characters followed
by NUL; the result is the C string then found in `buf`. -/
def git_oid_tostr (n : Nat) (oid : git_oid) : String :=
  ⟨(git_oid_fmt oid).take (n - 1)⟩

/-- Rendering of `%d` for an `int`. -/
def formatD (n : Int) : String :=
  match n with
  | .ofNat m => Nat.repr m
  | .negSucc m => "-" ++ Nat.repr (m + 1)

/-- Value of an `int` expression after reduction to 32 bits in two's complement (what the
increment of an `int` produces on the usual targets; the language leaves the overflow
undefined). -/
def wrap32 (n : Int) : Int := (n + 2 ^ 31) % 2 ^ 32 - 2 ^ 31

/-! ## The git backend and the delegations -/

/-- The part of the git backend interface (`git_backend.h`) that the file calls, over a state
`σ` and a repository pointer type `ρ`.  `RemoveVCS` returns its result together with the values
it leaves in the reference parameter `aRepo` and behind the pointer `aErrors`. -/
structure GIT_BACKEND (σ ρ : Type) where
  GetRepositoryForFile : String → σ → Option ρ × σ
  CreateBranch : Option ρ → String → σ → Int × σ
  RemoveVCS : Option ρ → String → Bool → Option String → σ →
    (Bool × Option ρ × Option String) × σ

namespace PROJECT_GIT_UTILS

def GetRepositoryForFile {σ ρ : Type} (backend : GIT_BACKEND σ ρ) (aFilename : String) :
    σ → Option ρ × σ :=
  backend.GetRepositoryForFile aFilename

def CreateBranch {σ ρ : Type} (backend : GIT_BACKEND σ ρ) (aRepo : Option ρ)
    (aBranchName : String) : σ → Int × σ :=
  backend.CreateBranch aRepo aBranchName

def RemoveVCS {σ ρ : Type} (backend : GIT_BACKEND σ ρ) (aRepo : Option ρ)
    (aProjectPath : String) (aRemoveGitDir : Bool) (aErrors : Option String) :
    σ → (Bool × Option ρ × Option String) × σ :=
  backend.RemoveVCS aRepo aProjectPath aRemoveGitDir aErrors

end PROJECT_GIT_UTILS

/-- The backend the queries run against (`GetGitBackend()`): it answers from the world; a
repository it returns is an open handle. -/
def GetGitBackend (w : World) : GIT_BACKEND LibState (Handle × git_repository) where
  GetRepositoryForFile := fun aFilename s =>
    s.answer .repository ((w s.clock).GetRepositoryForFile aFilename)
  CreateBranch := fun aRepo aBranchName s =>
    ((w s.clock).CreateBranch aRepo aBranchName, s.tick)
  RemoveVCS := fun aRepo aProjectPath aRemoveGitDir aErrors s =>
    ((w s.clock).RemoveVCS aRepo aProjectPath aRemoveGitDir aErrors, s.tick)

/-! ## The queries -/

namespace PROJECT_GIT_UTILS

/-- `PROJECT_GIT_UTILS::GetCurrentHash`: the hash of HEAD, `no hash` when a step fails. -/
def GetCurrentHash (w : World) (aProjectFile : String) (aShort : Bool) (s : LibState) :
    String × LibState :=
  let result := "no hash"
  match GetRepositoryForFile (GetGitBackend w) aProjectFile s with
  | (none, s) => (result, s)
  | (some (repo_h, repo), s) =>
    match git_repository_head w repo s with
    | (none, s) => (result, git_repository_free repo_h s)
    | (some (head_h, head), s) =>
      let result :=
        match git_reference_target head with
        | some oid =>
          let len := if aShort then 8 else 41
          git_oid_tostr len oid
        | none => result
      let s := git_reference_free head_h s
      (result, git_repository_free repo_h s)

/-- One iteration of the tag loop of `GetLatestTag`, on `(latest_time, latest_tag)`. -/
def tagLoopBody (w : World) (repo : git_repository) (tag_name : String)
    (latest : Int × String) (s : LibState) : (Int × String) × LibState :=
  let ref_name := "refs/tags/" ++ tag_name
  match git_reference_lookup w repo ref_name s with
  | (none, s) => (latest, s)
  | (some (tag_ref_h, tag_ref), s) =>
    let (latest, s) :=
      match git_reference_target tag_ref with
      | none => (latest, s)
      | some tag_oid =>
        match git_object_lookup w repo tag_oid .GIT_OBJECT_ANY s with
        | (none, s) => (latest, s)
        | (some (obj_h, obj), s) =>
          let (commit, s) :=
            match obj with
            | .tag target_oid =>
              match git_object_lookup w repo target_oid .GIT_OBJECT_COMMIT s with
              | (some target, s) => (some target, s)
              | (none, s) => (none, s)
            | .commit _ _ => (some (obj_h, obj), s)
            | _ => (none, s)
          let (latest, s) :=
            match commit with
            | some (commit_h, commit) =>
              let commit_time := git_commit_time commit
              let latest := if commit_time > latest.1 then (commit_time, tag_name) else latest
              let s :=
                if git_object_type obj = .GIT_OBJECT_TAG then git_object_free commit_h s else s
              (latest, s)
            | none => (latest, s)
          (latest, git_object_free obj_h s)
    (latest, git_reference_free tag_ref_h s)

/-- The loop `for( size_t i = 0; i < tag_names.count; ++i )` of `GetLatestTag`. -/
def tagLoop (w : World) (repo : git_repository) :
    List String → Int × String → LibState → (Int × String) × LibState
  | [], latest, s => (latest, s)
  | tag_name :: rest, latest, s =>
    match tagLoopBody w repo tag_name latest s with
    | (latest, s) => tagLoop w repo rest latest s

/-- `PROJECT_GIT_UTILS::GetLatestTag`: `latest_time` starts at 0 and `latest_tag` empty. -/
def GetLatestTag (w : World) (aProjectFile : String) (s : LibState) : String × LibState :=
  let result := ""
  match GetRepositoryForFile (GetGitBackend w) aProjectFile s with
  | (none, s) => (result, s)
  | (some (repo_h, repo), s) =>
    match git_tag_list w repo s with
    | (none, s) => (result, git_repository_free repo_h s)
    | (some (names_h, tag_names), s) =>
      match tagLoop w repo tag_names (0, "") s with
      | ((_, latest_tag), s) =>
        let result := latest_tag
        let s := git_strarray_dispose names_h s
        (result, git_repository_free repo_h s)

/-- The loop `while( git_revwalk_next( &commit_oid, walker ) == 0 )` of
`GetCommitsSinceLatestTag`, over the ids the walker yields; `count` is an `int`. -/
def countLoop (target_oid : git_oid) : List git_oid → Int → Int
  | [], count => count
  | commit_oid :: rest, count =>
    if git_oid_equal commit_oid target_oid then count
    else countLoop target_oid rest (wrap32 (count + 1))

/-- `PROJECT_GIT_UTILS::GetCommitsSinceLatestTag`: the inner `GetLatestTag` opens the
repository a second time; the walk starts at the target of HEAD. -/
def GetCommitsSinceLatestTag (w : World) (aProjectFile : String) (s : LibState) :
    Int × LibState :=
  let count : Int := 0
  match GetRepositoryForFile (GetGitBackend w) aProjectFile s with
  | (none, s) => (count, s)
  | (some (repo_h, repo), s) =>
    match GetLatestTag w aProjectFile s with
    | (latest_tag, s) =>
      if latest_tag = "" then (count, git_repository_free repo_h s)
      else
        match git_repository_head w repo s with
        | (none, s) => (count, git_repository_free repo_h s)
        | (some (head_h, head_ref), s) =>
          let tag_ref_name := "refs/tags/" ++ latest_tag
          match git_reference_lookup w repo tag_ref_name s with
          | (none, s) =>
            let s := git_reference_free head_h s
            (count, git_repository_free repo_h s)
          | (some (tag_h, tag_ref), s) =>
            let (count, s) :=
              match git_reference_target head_ref, git_reference_target tag_ref with
              | some head_oid, some tag_oid =>
                match git_revwalk_new w repo s with
                | (none, s) => (count, s)
                | (some (walker_h, _), s) =>
                  match git_revwalk_push w repo head_oid s with
                  | (walker, s) =>
                    let (count, s) :=
                      match git_object_lookup w repo tag_oid .GIT_OBJECT_ANY s with
                      | (none, s) => (count, s)
                      | (some (tag_obj_h, tag_obj), s) =>
                        let target_oid :=
                          match tag_obj with
                          | .tag target_id => target_id
                          | _ => tag_oid
                        let s := git_object_free tag_obj_h s
                        (countLoop target_oid walker count, s)
                    (count, git_revwalk_free walker_h s)
              | _, _ => (count, s)
            let s := git_reference_free tag_h s
            let s := git_reference_free head_h s
            (count, git_repository_free repo_h s)

/-- `PROJECT_GIT_UTILS::GetGitRevision`: `wxString::Format( "%s-%d", ... )` is concatenation
with the `%d` rendering of the count. -/
def GetGitRevision (w : World) (aProjectFile : String) (s : LibState) : String × LibState :=
  match GetLatestTag w aProjectFile s with
  | (latest_tag, s) =>
    if latest_tag = "" then ("", s)
    else
      match GetCommitsSinceLatestTag w aProjectFile s with
      | (commits_since, s) =>
        if commits_since = 0 then (latest_tag, s)
        else (latest_tag ++ "-" ++ formatD commits_since, s)

end PROJECT_GIT_UTILS

/-! ## Concrete repositories used as instances -/

/-- The `k` low-order base-256 digits of `n`, least significant first. -/
def bytesOfNat : Nat → Nat → List (Fin 256)
  | 0, _ => []
  | k + 1, n => ⟨n % 256, Nat.mod_lt n (by decide)⟩ :: bytesOfNat k (n / 256)

/-- The number whose base-256 digits, least significant first, are the given bytes. -/
def natOfBytes : List (Fin 256) → Nat
  | [] => 0
  | b :: rest => b.val + 256 * natOfBytes rest

/-- The id whose bytes are the base-256 digits of `n`. -/
def oidOfNat (n : Nat) : git_oid := ⟨bytesOfNat 20 n, by simp [bytesOfNat]⟩

/-- A library in which nothing resolves. -/
def emptyLib : GitLib where
  GetRepositoryForFile := fun _ => none
  CreateBranch := fun _ _ => -1
  RemoveVCS := fun aRepo _ _ aErrors => (false, aRepo, aErrors)
  git_repository_head := fun _ => none
  git_tag_list := fun _ => none
  git_reference_lookup := fun _ _ => none
  odb := fun _ _ => none
  git_revwalk_new := fun _ => false
  git_revwalk := fun _ _ => []

/-- State before a query in the instances: nothing open, nothing logged. -/
def idle : LibState := ⟨0, [], [], []⟩

/-- A repository with linear history 1 ← 2 ← 3 ← 4 (commit times 10, 20, 30, 40), HEAD at 4,
lightweight tag `v1` on commit 2 and annotated tag `v0` (tag object 9) on commit 1. -/
def linearLib : GitLib :=
  { emptyLib with
    GetRepositoryForFile := fun f => if f = "board.kicad_pro" then some 7 else none
    git_repository_head := fun _ => some ⟨some (oidOfNat 4)⟩
    git_tag_list := fun _ => some ["v0", "v1"]
    git_reference_lookup := fun _ name =>
      if name = "refs/tags/v1" then some ⟨some (oidOfNat 2)⟩
      else if name = "refs/tags/v0" then some ⟨some (oidOfNat 9)⟩
      else none
    odb := fun _ oid =>
      if oid = oidOfNat 4 then some (.commit 40 [oidOfNat 3])
      else if oid = oidOfNat 3 then some (.commit 30 [oidOfNat 2])
      else if oid = oidOfNat 2 then some (.commit 20 [oidOfNat 1])
      else if oid = oidOfNat 1 then some (.commit 10 [])
      else if oid = oidOfNat 9 then some (.tag (oidOfNat 1))
      else none
    git_revwalk_new := fun _ => true
    git_revwalk := fun _ oid =>
      if oid = oidOfNat 4 then [oidOfNat 4, oidOfNat 3, oidOfNat 2, oidOfNat 1] else [] }

/-- The linear repository, whose object database stops answering from request 12 on. -/
def flakyWorld : World := fun t =>
  if t < 12 then linearLib else { linearLib with odb := fun _ _ => none }

/-- A repository whose only tag `v1` is on a commit made at the epoch (commit time 0). -/
def epochLib : GitLib :=
  { emptyLib with
    GetRepositoryForFile := fun f => if f = "board.kicad_pro" then some 7 else none
    git_repository_head := fun _ => some ⟨some (oidOfNat 1)⟩
    git_tag_list := fun _ => some ["v1"]
    git_reference_lookup := fun _ name =>
      if name = "refs/tags/v1" then some ⟨some (oidOfNat 1)⟩ else none
    odb := fun _ oid => if oid = oidOfNat 1 then some (.commit 0 []) else none
    git_revwalk_new := fun _ => true
    git_revwalk := fun _ oid => if oid = oidOfNat 1 then [oidOfNat 1] else [] }

/-- A repository with a merge: commit 1 (time 10) has the children 2 (time 20, a side branch)
and 3 (time 30, tagged `v1`); HEAD is commit 4 (time 40), the merge of 3 and 2.  The walker
yields the commits reachable from HEAD newest first. -/
def mergeLib : GitLib :=
  { emptyLib with
    GetRepositoryForFile := fun f => if f = "board.kicad_pro" then some 7 else none
    git_repository_head := fun _ => some ⟨some (oidOfNat 4)⟩
    git_tag_list := fun _ => some ["v1"]
    git_reference_lookup := fun _ name =>
      if name = "refs/tags/v1" then some ⟨some (oidOfNat 3)⟩ else none
    odb := fun _ oid =>
      if oid = oidOfNat 4 then some (.commit 40 [oidOfNat 3, oidOfNat 2])
      else if oid = oidOfNat 3 then some (.commit 30 [oidOfNat 1])
      else if oid = oidOfNat 2 then some (.commit 20 [oidOfNat 1])
      else if oid = oidOfNat 1 then some (.commit 10 [])
      else none
    git_revwalk_new := fun _ => true
    git_revwalk := fun _ oid =>
      if oid = oidOfNat 4 then [oidOfNat 4, oidOfNat 3, oidOfNat 2, oidOfNat 1] else [] }

/-- A repository whose tag `v1` is on commit 2, which is not an ancestor of HEAD: the history
of HEAD is 3 ← 4. -/
def orphanLib : GitLib :=
  { emptyLib with
    GetRepositoryForFile := fun f => if f = "board.kicad_pro" then some 7 else none
    git_repository_head := fun _ => some ⟨some (oidOfNat 4)⟩
    git_tag_list := fun _ => some ["v1"]
    git_reference_lookup := fun _ name =>
      if name = "refs/tags/v1" then some ⟨some (oidOfNat 2)⟩ else none
    odb := fun _ oid =>
      if oid = oidOfNat 4 then some (.commit 40 [oidOfNat 3])
      else if oid = oidOfNat 3 then some (.commit 30 [])
      else if oid = oidOfNat 2 then some (.commit 20 [])
      else none
    git_revwalk_new := fun _ => true
    git_revwalk := fun _ oid => if oid = oidOfNat 4 then [oidOfNat 4, oidOfNat 3] else [] }

/-- The ids `a`, `a + 1`, ..., `a + n - 1`. -/
def idsFrom : Nat → Nat → List git_oid
  | 0, _ => []
  | n + 1, a => oidOfNat a :: idsFrom n (a + 1)

/-- The walk of `hugeLib`: the 2^31 commits with the ids 4, 5, 6, ... -/
def hugeWalk : List git_oid := idsFrom (2 ^ 31) 4

/-- A repository whose HEAD (commit 4) has a linear history of 2^31 commits, commit `i` having
the parent `i + 1`, and whose tag `v1` is on commit 2, which is not part of that history. -/
def hugeLib : GitLib :=
  { emptyLib with
    GetRepositoryForFile := fun f => if f = "board.kicad_pro" then some 7 else none
    git_repository_head := fun _ => some ⟨some (oidOfNat 4)⟩
    git_tag_list := fun _ => some ["v1"]
    git_reference_lookup := fun _ name =>
      if name = "refs/tags/v1" then some ⟨some (oidOfNat 2)⟩ else none
    odb := fun _ oid =>
      if natOfBytes oid.id = 2 then some (.commit 20 [])
      else if 4 ≤ natOfBytes oid.id ∧ natOfBytes oid.id < 2 ^ 31 + 3 then
        some (.commit (2 ^ 32 - natOfBytes oid.id) [oidOfNat (natOfBytes oid.id + 1)])
      else if natOfBytes oid.id = 2 ^ 31 + 3 then some (.commit (2 ^ 31) [])
      else none
    git_revwalk_new := fun _ => true
    git_revwalk := fun _ _ => hugeWalk }

/-! ## Notions the claims speak about -/

/-- Commit time of the commit a tag name resolves to in a fixed repository: through the
reference `refs/tags/<name>`, its target id and the object there, which is the commit itself or
an annotated tag object whose target is a commit; `none` when one of these does not resolve. -/
def tagCommitTime (lib : GitLib) (repo : git_repository) (name : String) : Option Int :=
  match lib.git_reference_lookup repo ("refs/tags/" ++ name) with
  | none => none
  | some ref =>
    match ref.target with
    | none => none
    | some oid =>
      match lib.odb repo oid with
      | some (.commit time _) => some time
      | some (.tag target_id) =>
        match lib.odb repo target_id with
        | some (.commit time _) => some time
        | _ => none
      | _ => none

/-- Effect of one tag on `(latest_time, latest_tag)` in a fixed repository: a tag that resolves
to a commit made after `latest_time` replaces the pair. -/
def tagStep (lib : GitLib) (repo : git_repository) (latest : Int × String) (name : String) :
    Int × String :=
  match tagCommitTime lib repo name with
  | some time => if time > latest.1 then (time, name) else latest
  | none => latest

/-- The id a tag points to: the target of an annotated tag object, the referenced id itself
otherwise. -/
def tagTargetId (tag_obj : git_object) (tag_oid : git_oid) : git_oid :=
  match tag_obj with
  | .tag target_id => target_id
  | _ => tag_oid

/-- Parent ids of a commit in the object database of a fixed repository. -/
def commitParents (lib : GitLib) (repo : git_repository) (oid : git_oid) : List git_oid :=
  match lib.odb repo oid with
  | some (.commit _ parents) => parents
  | _ => []

/-- Commits reachable from `oid` in at most `fuel` parent steps (with repetitions). -/
def reachableWithin (lib : GitLib) (repo : git_repository) : Nat → git_oid → List git_oid
  | 0, oid => [oid]
  | fuel + 1, oid => oid :: (commitParents lib repo oid).flatMap (reachableWithin lib repo fuel)

/-- Number of commits reachable from `a` that are not reachable from `b`. -/
def commitsAhead (lib : GitLib) (repo : git_repository) (fuel : Nat) (a b : git_oid) : Nat :=
  (((reachableWithin lib repo fuel a).dedup).filter
    (fun c => decide (c ∉ reachableWithin lib repo fuel b))).length

/-! ## Handle accounting -/

/-- Handles acquired on the way from `s` to `s'`. -/
def acquiredSince (s s' : LibState) : List Handle :=
  s'.acquired.take (s'.acquired.length - s.acquired.length)

/-- Handles released on the way from `s` to `s'`. -/
def releasedSince (s s' : LibState) : List Handle :=
  s'.released.take (s'.released.length - s.released.length)

/-- Going from `s` to `s'` opened and closed its own handles: the open handles are the same,
the logs were only extended, every handle acquired on the way was released exactly once, and
nothing else was released. -/
def HandlesBalanced (s s' : LibState) : Prop :=
  s'.live = s.live ∧
  s'.acquired = acquiredSince s s' ++ s.acquired ∧
  s'.released = releasedSince s s' ++ s.released ∧
  (∀ h ∈ acquiredSince s s', (acquiredSince s s').count h = 1 ∧ (releasedSince s s').count h = 1) ∧
  (∀ h ∈ releasedSince s s', h ∈ acquiredSince s s')

/-- Compositional form of `HandlesBalanced`: the new handles carry ids between the two request
indices, which keeps them apart from those of the steps before and after. -/
def Bal (s s' : LibState) : Prop :=
  s'.live = s.live ∧ s.clock ≤ s'.clock ∧
  ∃ hs rs : List Handle, s'.acquired = hs ++ s.acquired ∧ s'.released = rs ++ s.released ∧
    rs.Perm hs ∧ hs.Nodup ∧ ∀ h ∈ hs, s.clock ≤ h.id ∧ h.id < s'.clock

/-! ## Handle accounting: lemmas -/

theorem Bal.refl (s : LibState) : Bal s s :=
  ⟨rfl, le_refl _, [], [], rfl, rfl, List.Perm.refl _, List.nodup_nil, by simp⟩

theorem Bal.tick (s : LibState) : Bal s s.tick :=
  ⟨rfl, Nat.le_succ _, [], [], rfl, rfl, List.Perm.refl _, List.nodup_nil, by simp⟩

theorem Bal.trans {s s1 s2 : LibState} (h1 : Bal s s1) (h2 : Bal s1 s2) : Bal s s2 := by
  obtain ⟨l1, c1, hs1, rs1, a1, r1, p1, n1, b1⟩ := h1
  obtain ⟨l2, c2, hs2, rs2, a2, r2, p2, n2, b2⟩ := h2
  refine ⟨l2.trans l1, le_trans c1 c2, hs2 ++ hs1, rs2 ++ rs1, ?_, ?_, p2.append p1, ?_, ?_⟩
  · rw [a2, a1, List.append_assoc]
  · rw [r2, r1, List.append_assoc]
  · refine List.Nodup.append n2 n1 ?_
    intro h hin2 hin1
    have := (b1 h hin1).2
    have := (b2 h hin2).1
    omega
  · intro h hin
    rcases List.mem_append.mp hin with hin | hin
    · have := b2 h hin; omega
    · have := b1 h hin; omega

/-- A handle that is opened, kept across a balanced stretch and then released. -/
theorem Bal.bracket {k : HandleKind} {s s2 : LibState} (h : Bal (s.opened k) s2) :
    Bal s (s2.release ⟨k, s.clock⟩) := by
  obtain ⟨l, c, hs, rs, a, r, p, n, b⟩ := h
  simp only [LibState.opened] at l c a r b
  refine ⟨?_, ?_, hs ++ [⟨k, s.clock⟩], ⟨k, s.clock⟩ :: rs, ?_, ?_, ?_, ?_, ?_⟩
  · simp [LibState.release, l]
  · simp only [LibState.release]; omega
  · simp [LibState.release, a]
  · simp [LibState.release, r]
  · exact (List.Perm.cons _ p).trans (List.perm_append_singleton _ _).symm
  · refine List.Nodup.append n (List.nodup_singleton _) ?_
    intro h hin1 hin2
    have h1 := (b h hin1).1
    rw [List.mem_singleton] at hin2
    subst hin2
    simp at h1
  · intro h hin
    simp only [LibState.release]
    rcases List.mem_append.mp hin with hin | hin
    · have := b h hin; omega
    · rw [List.mem_singleton] at hin
      subst hin
      simp only
      omega

theorem Bal.handlesBalanced {s s' : LibState} (h : Bal s s') : HandlesBalanced s s' := by
  obtain ⟨l, _, hs, rs, a, r, p, n, _⟩ := h
  have ha : acquiredSince s s' = hs := by simp [acquiredSince, a]
  have hr : releasedSince s s' = rs := by simp [releasedSince, r]
  refine ⟨l, ?_, ?_, ?_, ?_⟩
  · rw [ha]; exact a
  · rw [hr]; exact r
  · intro h hin
    rw [ha] at hin ⊢
    rw [hr, p.count_eq]
    exact ⟨List.count_eq_one_of_mem n hin, List.count_eq_one_of_mem n hin⟩
  · intro h hin
    rw [hr] at hin
    rw [ha]
    exact p.subset hin

namespace PROJECT_GIT_UTILS

theorem GetCurrentHash_bal (w : World) (file : String) (aShort : Bool) (s : LibState) :
    Bal s (GetCurrentHash w file aShort s).2 := by
  unfold GetCurrentHash
  simp only [GetRepositoryForFile, GetGitBackend, git_repository_head, git_reference_free,
    git_repository_free]
  cases (w s.clock).GetRepositoryForFile file with
  | none => exact Bal.tick s
  | some repo =>
    simp only [LibState.answer]
    cases (w (s.opened .repository).clock).git_repository_head repo with
    | none => exact Bal.bracket (Bal.tick _)
    | some head => exact Bal.bracket (Bal.bracket (Bal.refl _))

theorem tagLoopBody_bal (w : World) (repo : git_repository) (name : String)
    (latest : Int × String) (s : LibState) : Bal s (tagLoopBody w repo name latest s).2 := by
  unfold tagLoopBody
  simp only [git_reference_lookup, git_object_lookup, git_reference_target, git_reference_free,
    git_object_free]
  cases (w s.clock).git_reference_lookup repo ("refs/tags/" ++ name) with
  | none => exact Bal.tick s
  | some tag_ref =>
    simp only [LibState.answer]
    cases tag_ref.target with
    | none => exact Bal.bracket (Bal.refl _)
    | some tag_oid =>
      simp only
      generalize Option.filter _ ((w (s.opened .reference).clock).odb repo tag_oid) = o
      cases o with
      | none => exact Bal.bracket (Bal.tick _)
      | some obj =>
        cases obj with
        | tag target_oid =>
          simp only
          generalize Option.filter _ _ = o
          cases o with
          | none => exact Bal.bracket (Bal.bracket (Bal.tick _))
          | some target =>
            simp only [git_object_type, if_true]
            exact Bal.bracket (Bal.bracket (Bal.bracket (Bal.refl _)))
        | commit time parents =>
          simp [git_object_type]
          exact Bal.bracket (Bal.bracket (Bal.refl _))
        | tree => exact Bal.bracket (Bal.bracket (Bal.refl _))
        | blob => exact Bal.bracket (Bal.bracket (Bal.refl _))

theorem tagLoop_bal (w : World) (repo : git_repository) (names : List String)
    (latest : Int × String) (s : LibState) : Bal s (tagLoop w repo names latest s).2 := by
  induction names generalizing latest s with
  | nil => exact Bal.refl s
  | cons name rest ih =>
    simp only [tagLoop]
    exact (tagLoopBody_bal w repo name latest s).trans (ih _ _)

theorem GetLatestTag_bal (w : World) (file : String) (s : LibState) :
    Bal s (GetLatestTag w file s).2 := by
  unfold GetLatestTag
  simp only [GetRepositoryForFile, GetGitBackend, git_tag_list, git_strarray_dispose,
    git_repository_free]
  cases (w s.clock).GetRepositoryForFile file with
  | none => exact Bal.tick s
  | some repo =>
    simp only [LibState.answer]
    cases (w (s.opened .repository).clock).git_tag_list repo with
    | none => exact Bal.bracket (Bal.tick _)
    | some names => exact Bal.bracket (Bal.bracket (tagLoop_bal _ _ _ _ _))

theorem GetCommitsSinceLatestTag_bal (w : World) (file : String) (s : LibState) :
    Bal s (GetCommitsSinceLatestTag w file s).2 := by
  unfold GetCommitsSinceLatestTag
  simp only [GetRepositoryForFile, GetGitBackend, git_repository_head, git_reference_lookup,
    git_reference_target, git_revwalk_new, git_revwalk_push, git_object_lookup,
    git_reference_free, git_repository_free, git_object_free, git_revwalk_free]
  cases (w s.clock).GetRepositoryForFile file with
  | none => exact Bal.tick s
  | some repo =>
    simp only [LibState.answer]
    have hL := GetLatestTag_bal w file (s.opened .repository)
    generalize GetLatestTag w file (s.opened .repository) = r at hL
    obtain ⟨latest_tag, s1⟩ := r
    simp only at hL ⊢
    split
    · exact Bal.bracket hL
    · cases (w s1.clock).git_repository_head repo with
      | none => exact Bal.bracket (hL.trans (Bal.tick _))
      | some head_ref =>
        simp only
        cases (w (s1.opened .reference).clock).git_reference_lookup repo
            ("refs/tags/" ++ latest_tag) with
        | none => exact Bal.bracket (hL.trans (Bal.bracket (Bal.tick _)))
        | some tag_ref =>
          simp only
          refine Bal.bracket (hL.trans (Bal.bracket (Bal.bracket ?_)))
          split
          · rename_i head_oid tag_oid _ _
            cases (w (LibState.opened HandleKind.reference
                (LibState.opened HandleKind.reference s1)).clock).git_revwalk_new repo with
            | false => exact Bal.tick _
            | true =>
              simp only [if_true]
              generalize Option.filter _ _ = o
              cases o with
              | none => exact Bal.bracket ((Bal.tick _).trans (Bal.tick _))
              | some obj => exact Bal.bracket ((Bal.tick _).trans (Bal.bracket (Bal.refl _)))
          · exact Bal.refl _

theorem GetGitRevision_bal (w : World) (file : String) (s : LibState) :
    Bal s (GetGitRevision w file s).2 := by
  unfold GetGitRevision
  have hL := GetLatestTag_bal w file s
  generalize GetLatestTag w file s = r at hL
  obtain ⟨latest_tag, s1⟩ := r
  simp only at hL ⊢
  split
  · exact hL
  · have hC := GetCommitsSinceLatestTag_bal w file s1
    generalize GetCommitsSinceLatestTag w file s1 = c at hC
    obtain ⟨n, s2⟩ := c
    simp only at hC ⊢
    split <;> exact hL.trans hC

/-! ## Values of the queries on a fixed repository -/

theorem tagLoopBody_value (lib : GitLib) (repo : git_repository) (name : String)
    (latest : Int × String) (s : LibState) :
    (tagLoopBody (fun _ => lib) repo name latest s).1 = tagStep lib repo latest name := by
  unfold tagLoopBody tagStep tagCommitTime
  simp only [git_reference_lookup, git_object_lookup, git_reference_target, git_reference_free,
    git_object_free]
  cases lib.git_reference_lookup repo ("refs/tags/" ++ name) with
  | none => rfl
  | some tag_ref =>
    simp only [LibState.answer]
    cases tag_ref.target with
    | none => rfl
    | some tag_oid =>
      simp only
      cases lib.odb repo tag_oid with
      | none => rfl
      | some obj =>
        cases obj with
        | tag target_oid =>
          simp only [Option.filter, true_or, decide_True, if_true]
          cases lib.odb repo target_oid with
          | none => rfl
          | some target =>
            cases target <;> simp [Option.filter, git_object_type, git_commit_time]
        | commit time parents => simp [Option.filter, git_object_type, git_commit_time]
        | tree => simp [Option.filter]
        | blob => simp [Option.filter]

theorem tagLoop_value (lib : GitLib) (repo : git_repository) (names : List String)
    (latest : Int × String) (s : LibState) :
    (tagLoop (fun _ => lib) repo names latest s).1 = names.foldl (tagStep lib repo) latest := by
  induction names generalizing latest s with
  | nil => rfl
  | cons name rest ih =>
    simp only [tagLoop, List.foldl_cons]
    rw [ih, tagLoopBody_value]

/-- The tag loop keeps the first tag of greatest commit time above the initial time. -/
theorem foldl_tagStep_spec (lib : GitLib) (repo : git_repository) (names : List String)
    (latest : Int × String) :
    (names.foldl (tagStep lib repo) latest = latest ∧
        ∀ n ∈ names, ∀ t, tagCommitTime lib repo n = some t → t ≤ latest.1) ∨
      ∃ pre post t tag, names.foldl (tagStep lib repo) latest = (t, tag) ∧
        names = pre ++ tag :: post ∧
        tagCommitTime lib repo tag = some t ∧
        latest.1 < t ∧
        (∀ n ∈ pre, ∀ u, tagCommitTime lib repo n = some u → u < t) ∧
        (∀ n ∈ post, ∀ u, tagCommitTime lib repo n = some u → u ≤ t) := by
  induction names generalizing latest with
  | nil => left; simp
  | cons x rest ih =>
    simp only [List.foldl_cons]
    by_cases hx : ∃ tx, tagCommitTime lib repo x = some tx ∧ tx > latest.1
    · obtain ⟨tx, htx, hgt⟩ := hx
      have hstep : tagStep lib repo latest x = (tx, x) := by simp [tagStep, htx, hgt]
      rw [hstep]
      right
      rcases ih (tx, x) with ⟨heq, hall⟩ | ⟨pre, post, t, tag, hfold, hdec, h2, hlt, hpre, hpost⟩
      · exact ⟨[], rest, tx, x, heq, rfl, htx, hgt, by simp, hall⟩
      · refine ⟨x :: pre, post, t, tag, hfold, ?_, h2, ?_, ?_, hpost⟩
        · rw [List.cons_append, ← hdec]
        · simp only at hlt; omega
        · intro n hn u hu
          rcases List.mem_cons.mp hn with rfl | hn
          · rw [htx] at hu
            simp only [Option.some.injEq] at hu hlt
            omega
          · exact hpre n hn u hu
    · have hle : ∀ t, tagCommitTime lib repo x = some t → t ≤ latest.1 := by
        intro t ht
        by_contra hc
        exact hx ⟨t, ht, by omega⟩
      have hstep : tagStep lib repo latest x = latest := by
        unfold tagStep
        cases h : tagCommitTime lib repo x with
        | none => rfl
        | some t => simp [not_lt.mpr (hle t h)]
      rw [hstep]
      rcases ih latest with ⟨heq, hall⟩ | ⟨pre, post, t, tag, hfold, hdec, h2, hlt, hpre, hpost⟩
      · left
        refine ⟨heq, ?_⟩
        intro n hn t ht
        rcases List.mem_cons.mp hn with rfl | hn
        · exact hle t ht
        · exact hall n hn t ht
      · right
        refine ⟨x :: pre, post, t, tag, hfold, ?_, h2, hlt, ?_, hpost⟩
        · rw [List.cons_append, ← hdec]
        · intro n hn u hu
          rcases List.mem_cons.mp hn with rfl | hn
          · have := hle u hu; omega
          · exact hpre n hn u hu

/-- Value of `GetLatestTag` on a fixed repository whose tag list could be read. -/
theorem GetLatestTag_value (lib : GitLib) (file : String) (s : LibState)
    (repo : git_repository) (names : List String)
    (hrepo : lib.GetRepositoryForFile file = some repo)
    (hlist : lib.git_tag_list repo = some names) :
    (GetLatestTag (fun _ => lib) file s).1 = (names.foldl (tagStep lib repo) (0, "")).2 := by
  unfold GetLatestTag
  simp only [GetRepositoryForFile, GetGitBackend, git_tag_list, hrepo, hlist, LibState.answer]
  rw [← tagLoop_value lib repo names (0, "") ((s.opened .repository).opened .strarray)]

/-- On a fixed repository the value of `GetLatestTag` does not depend on the bookkeeping. -/
theorem GetLatestTag_value_indep (lib : GitLib) (file : String) (s s' : LibState) :
    (GetLatestTag (fun _ => lib) file s).1 = (GetLatestTag (fun _ => lib) file s').1 := by
  cases hrepo : lib.GetRepositoryForFile file with
  | none =>
    unfold GetLatestTag
    simp [GetRepositoryForFile, GetGitBackend, hrepo, LibState.answer]
  | some repo =>
    cases hlist : lib.git_tag_list repo with
    | none =>
      unfold GetLatestTag
      simp [GetRepositoryForFile, GetGitBackend, git_tag_list, hrepo, hlist, LibState.answer]
    | some names =>
      rw [GetLatestTag_value lib file s repo names hrepo hlist,
        GetLatestTag_value lib file s' repo names hrepo hlist]

theorem wrap32_of_lt (n : Int) (h0 : 0 ≤ n) (h1 : n < 2 ^ 31) : wrap32 n = n := by
  unfold wrap32
  omega

theorem wrap32_succ (n : Int) : wrap32 (wrap32 n + 1) = wrap32 (n + 1) := by
  unfold wrap32
  omega

/-- The counting loop on a walk that never yields the target: every step increments. -/
theorem countLoop_not_mem (target : git_oid) (walk : List git_oid) (count : Int)
    (h : target ∉ walk) :
    wrap32 (countLoop target walk count) = wrap32 (count + walk.length) := by
  induction walk generalizing count with
  | nil => simp [countLoop]
  | cons c rest ih =>
    have hc : c ≠ target := fun e => h (by simp [e])
    have hr : target ∉ rest := fun e => h (by simp [e])
    simp only [countLoop, git_oid_equal, hc, decide_False, Bool.false_eq_true, if_false]
    rw [ih _ hr]
    simp only [List.length_cons, Nat.cast_add, Nat.cast_one]
    unfold wrap32
    omega

theorem countLoop_int32 (target : git_oid) (walk : List git_oid) (count : Int)
    (h : wrap32 count = count) : wrap32 (countLoop target walk count) = countLoop target walk count := by
  induction walk generalizing count with
  | nil => simpa [countLoop] using h
  | cons c rest ih =>
    simp only [countLoop]
    split
    · exact h
    · apply ih
      unfold wrap32
      omega

/-- The counting loop stops at the first occurrence of the target. -/
theorem countLoop_append (target : git_oid) (pre post : List git_oid) (count : Int)
    (h : target ∉ pre) :
    wrap32 (countLoop target (pre ++ target :: post) count) = wrap32 (count + pre.length) := by
  induction pre generalizing count with
  | nil => simp [countLoop, git_oid_equal]
  | cons c rest ih =>
    have hc : c ≠ target := fun e => h (by simp [e])
    have hr : target ∉ rest := fun e => h (by simp [e])
    simp only [List.cons_append, countLoop, git_oid_equal, hc, decide_False, Bool.false_eq_true,
      if_false]
    refine (ih (wrap32 (count + 1)) hr).trans ?_
    simp only [List.length_cons, Nat.cast_add, Nat.cast_one]
    unfold wrap32
    omega

/-- Value of `GetCommitsSinceLatestTag` on a fixed repository when every step up to the
counting loop succeeds. -/
theorem GetCommitsSinceLatestTag_value (lib : GitLib) (file : String) (s : LibState)
    (repo : git_repository) (tag : String) (head_ref tag_ref : git_reference)
    (head_oid tag_oid : git_oid) (tag_obj : git_object)
    (hrepo : lib.GetRepositoryForFile file = some repo)
    (htag : (GetLatestTag (fun _ => lib) file s).1 = tag) (hne : tag ≠ "")
    (hhead : lib.git_repository_head repo = some head_ref)
    (hhoid : head_ref.target = some head_oid)
    (href : lib.git_reference_lookup repo ("refs/tags/" ++ tag) = some tag_ref)
    (htoid : tag_ref.target = some tag_oid)
    (hwalker : lib.git_revwalk_new repo = true)
    (hobj : lib.odb repo tag_oid = some tag_obj) :
    (GetCommitsSinceLatestTag (fun _ => lib) file s).1 =
      countLoop (tagTargetId tag_obj tag_oid) (lib.git_revwalk repo head_oid) 0 := by
  have hL : (GetLatestTag (fun _ => lib) file (s.opened .repository)).1 = tag :=
    (GetLatestTag_value_indep lib file _ s).trans htag
  unfold GetCommitsSinceLatestTag
  simp only [GetRepositoryForFile, GetGitBackend, hrepo, LibState.answer]
  generalize GetLatestTag (fun _ => lib) file (s.opened .repository) = r at hL
  obtain ⟨latest_tag, s1⟩ := r
  simp only at hL
  subst hL
  simp only [hne, if_false, git_repository_head, hhead, LibState.answer, git_reference_lookup,
    href, git_reference_target, hhoid, htoid, git_revwalk_new, hwalker, if_true,
    git_revwalk_push, git_object_lookup, hobj, Option.filter, true_or, decide_True]
  cases tag_obj <;> rfl

theorem GetCurrentHash_value (w : World) (file : String) (aShort : Bool) (s : LibState) :
    (GetCurrentHash w file aShort s).1 =
      match (w s.clock).GetRepositoryForFile file with
      | none => "no hash"
      | some repo =>
        match (w (s.clock + 1)).git_repository_head repo with
        | none => "no hash"
        | some head =>
          match head.target with
          | none => "no hash"
          | some oid => git_oid_tostr (if aShort then 8 else 41) oid := by
  unfold GetCurrentHash
  simp only [GetRepositoryForFile, GetGitBackend, git_repository_head, git_reference_target]
  cases (w s.clock).GetRepositoryForFile file with
  | none => rfl
  | some repo =>
    simp only [LibState.answer, LibState.opened]
    cases (w (s.clock + 1)).git_repository_head repo with
    | none => rfl
    | some head =>
      simp only
      cases head.target <;> rfl

theorem hexDigit_mem (d : Nat) (h : d < 16) : hexDigit d ∈ "0123456789abcdef".data := by
  interval_cases d <;> decide

theorem git_oid_fmt_length (oid : git_oid) : (git_oid_fmt oid).length = 40 := by
  have h : ∀ l : List (Fin 256),
      (l.flatMap (fun b => [hexDigit (b.val / 16), hexDigit (b.val % 16)])).length
        = 2 * l.length := by
    intro l
    induction l with
    | nil => rfl
    | cons b l ih => simp only [List.flatMap_cons, List.length_append, ih, List.length_cons,
        List.length_nil]; omega
  rw [git_oid_fmt, h, oid.size]

theorem git_oid_fmt_hex (oid : git_oid) : ∀ c ∈ git_oid_fmt oid, c ∈ "0123456789abcdef".data := by
  intro c hc
  simp only [git_oid_fmt, List.mem_flatMap, List.mem_cons, List.mem_singleton,
    List.not_mem_nil, or_false] at hc
  obtain ⟨b, -, rfl | rfl⟩ := hc
  · exact hexDigit_mem _ (by have := b.isLt; omega)
  · exact hexDigit_mem _ (by omega)

theorem git_oid_tostr_ne_no_hash (n : Nat) (oid : git_oid) : git_oid_tostr n oid ≠ "no hash" := by
  intro h
  have hd : (git_oid_tostr n oid).data = "no hash".data := by rw [h]
  have hmem : ∀ c ∈ (git_oid_tostr n oid).data, c ∈ "0123456789abcdef".data := by
    intro c hc
    exact git_oid_fmt_hex oid c (List.mem_of_mem_take hc)
  rw [hd] at hmem
  exact absurd (hmem 'n' (by decide)) (by decide)

/-- Value of `GetCommitsSinceLatestTag` in terms of the library answers, each at the request
index at which the query asks for it (`t` is the index after the inner `GetLatestTag`). -/
theorem GetCommitsSinceLatestTag_eq (w : World) (file : String) (s : LibState) :
    (GetCommitsSinceLatestTag w file s).1 =
      match (w s.clock).GetRepositoryForFile file with
      | none => 0
      | some repo =>
        if (GetLatestTag w file (s.opened .repository)).1 = "" then 0
        else
          match (w (GetLatestTag w file (s.opened .repository)).2.clock).git_repository_head
              repo with
          | none => 0
          | some head_ref =>
            match (w ((GetLatestTag w file (s.opened .repository)).2.clock + 1)).git_reference_lookup
                repo ("refs/tags/" ++ (GetLatestTag w file (s.opened .repository)).1) with
            | none => 0
            | some tag_ref =>
              match head_ref.target, tag_ref.target with
              | some head_oid, some tag_oid =>
                if (w ((GetLatestTag w file (s.opened .repository)).2.clock + 2)).git_revwalk_new
                    repo = true then
                  match (w ((GetLatestTag w file (s.opened .repository)).2.clock + 4)).odb
                      repo tag_oid with
                  | none => 0
                  | some tag_obj =>
                    countLoop (tagTargetId tag_obj tag_oid)
                      ((w ((GetLatestTag w file (s.opened .repository)).2.clock + 3)).git_revwalk
                        repo head_oid) 0
                else 0
              | _, _ => 0 := by
  unfold GetCommitsSinceLatestTag
  simp only [GetRepositoryForFile, GetGitBackend]
  cases (w s.clock).GetRepositoryForFile file with
  | none => rfl
  | some repo =>
    simp only [LibState.answer]
    generalize GetLatestTag w file (s.opened .repository) = r
    obtain ⟨latest_tag, s1⟩ := r
    simp only
    split
    · rfl
    · simp only [git_repository_head]
      cases (w s1.clock).git_repository_head repo with
      | none => rfl
      | some head_ref =>
        simp only [LibState.answer, git_reference_lookup, LibState.opened]
        cases (w (s1.clock + 1)).git_reference_lookup repo ("refs/tags/" ++ latest_tag) with
        | none => rfl
        | some tag_ref =>
          simp only [git_reference_target]
          cases head_ref.target with
          | none => rfl
          | some head_oid =>
            cases tag_ref.target with
            | none => rfl
            | some tag_oid =>
              simp only [git_revwalk_new]
              cases (w (s1.clock + 1 + 1)).git_revwalk_new repo with
              | false => rfl
              | true =>
                simp only [if_true, LibState.answer, LibState.opened, git_revwalk_push,
                  LibState.tick, git_object_lookup, true_or, decide_True]
                cases (w (s1.clock + 1 + 1 + 1 + 1)).odb repo tag_oid with
                | none => rfl
                | some tag_obj => cases tag_obj <;> rfl

theorem natOfBytes_bytesOfNat (k n : Nat) : natOfBytes (bytesOfNat k n) = n % 256 ^ k := by
  induction k generalizing n with
  | zero => simp [bytesOfNat, natOfBytes, Nat.mod_one]
  | succ k ih =>
    simp only [bytesOfNat, natOfBytes, ih]
    rw [pow_succ, Nat.mul_comm (256 ^ k) 256, Nat.mod_mul]

theorem oidOfNat_inj (a b : Nat) (ha : a < 256 ^ 20) (hb : b < 256 ^ 20)
    (h : oidOfNat a = oidOfNat b) : a = b := by
  have h1 : natOfBytes (oidOfNat a).id = natOfBytes (oidOfNat b).id := by rw [h]
  simp only [oidOfNat, natOfBytes_bytesOfNat] at h1
  rwa [Nat.mod_eq_of_lt ha, Nat.mod_eq_of_lt hb] at h1

theorem idsFrom_length (n a : Nat) : (idsFrom n a).length = n := by
  induction n generalizing a with
  | zero => rfl
  | succ n ih => simp [idsFrom, ih]

theorem mem_idsFrom (n a : Nat) (x : git_oid) (h : x ∈ idsFrom n a) :
    ∃ i, a ≤ i ∧ i < a + n ∧ x = oidOfNat i := by
  induction n generalizing a with
  | zero => simp [idsFrom] at h
  | succ n ih =>
    simp only [idsFrom, List.mem_cons] at h
    rcases h with rfl | h
    · exact ⟨a, le_refl _, by omega, rfl⟩
    · obtain ⟨i, h1, h2, h3⟩ := ih (a + 1) h
      exact ⟨i, by omega, by omega, h3⟩

theorem hugeWalk_length : hugeWalk.length = 2 ^ 31 := idsFrom_length _ _

theorem not_mem_hugeWalk : oidOfNat 2 ∉ hugeWalk := by
  intro h
  obtain ⟨i, h1, h2, he⟩ := mem_idsFrom _ _ _ h
  have := oidOfNat_inj 2 i (by norm_num) (by norm_num at h2 ⊢; omega) he
  omega

/-- Value of `GetGitRevision` on a fixed repository with a latest tag. -/
theorem GetGitRevision_value (lib : GitLib) (file : String) (s : LibState) (tag : String)
    (n : Int) (htag : (GetLatestTag (fun _ => lib) file s).1 = tag) (hne : tag ≠ "")
    (hn : ∀ s', (GetCommitsSinceLatestTag (fun _ => lib) file s').1 = n) :
    (GetGitRevision (fun _ => lib) file s).1 =
      if n = 0 then tag else tag ++ "-" ++ formatD n := by
  unfold GetGitRevision
  generalize GetLatestTag (fun _ => lib) file s = r at htag
  obtain ⟨latest_tag, s1⟩ := r
  simp only at htag
  subst htag
  simp only [hne, if_false]
  have h := hn s1
  generalize GetCommitsSinceLatestTag (fun _ => lib) file s1 = c at h ⊢
  obtain ⟨m, s2⟩ := c
  simp only at h
  subst h
  simp only
  split <;> rfl

end PROJECT_GIT_UTILS

/-! ## The claims -/

open PROJECT_GIT_UTILS

/-- C6: `GetRepositoryForFile`, `CreateBranch` and `RemoveVCS` are pure delegations: on every
argument tuple and every state each returns exactly the value, and leaves exactly the state,
`aRepo` and `aErrors`, that the backend operation of the same name returns for the same
arguments. -/
theorem delegations_are_backend_calls {σ ρ : Type} (backend : GIT_BACKEND σ ρ) :
    (∀ (aFilename : String) (s : σ),
      GetRepositoryForFile backend aFilename s = backend.GetRepositoryForFile aFilename s) ∧
    (∀ (aRepo : Option ρ) (aBranchName : String) (s : σ),
      CreateBranch backend aRepo aBranchName s = backend.CreateBranch aRepo aBranchName s) ∧
    (∀ (aRepo : Option ρ) (aProjectPath : String) (aRemoveGitDir : Bool)
        (aErrors : Option String) (s : σ),
      RemoveVCS backend aRepo aProjectPath aRemoveGitDir aErrors s
        = backend.RemoveVCS aRepo aProjectPath aRemoveGitDir aErrors s) :=
  ⟨fun _ _ => rfl, fun _ _ _ => rfl, fun _ _ _ _ _ => rfl⟩

/-- C1: `GetGitRevision` composes the revision from the latest tag and the commit count: the
result is empty when `GetLatestTag` returns the empty string; otherwise it is the latest tag
when `GetCommitsSinceLatestTag` returns 0, and the tag followed by `-` and the decimal rendering
of the count otherwise.  The result is non-empty exactly when a latest tag exists, and the tag
is a prefix of every non-empty result. -/
theorem GetGitRevision_composes (w : World) (file : String) (s : LibState) :
    ((GetLatestTag w file s).1 = "" → (GetGitRevision w file s).1 = "") ∧
    ((GetLatestTag w file s).1 ≠ "" →
      (GetCommitsSinceLatestTag w file (GetLatestTag w file s).2).1 = 0 →
      (GetGitRevision w file s).1 = (GetLatestTag w file s).1) ∧
    ((GetLatestTag w file s).1 ≠ "" →
      (GetCommitsSinceLatestTag w file (GetLatestTag w file s).2).1 ≠ 0 →
      (GetGitRevision w file s).1 = (GetLatestTag w file s).1 ++ "-" ++
        formatD (GetCommitsSinceLatestTag w file (GetLatestTag w file s).2).1) ∧
    ((GetGitRevision w file s).1 ≠ "" ↔ (GetLatestTag w file s).1 ≠ "") ∧
    ((GetGitRevision w file s).1 ≠ "" →
      (GetLatestTag w file s).1.data <+: (GetGitRevision w file s).1.data) := by
  unfold GetGitRevision
  generalize GetLatestTag w file s = r
  obtain ⟨tag, s1⟩ := r
  generalize hc : GetCommitsSinceLatestTag w file s1 = c
  obtain ⟨n, s2⟩ := c
  by_cases ht : tag = ""
  · simp [ht]
  · by_cases hn : n = 0
    · simp [ht, hn, hc]
    · simp only [ht, hn, hc, if_false, ne_eq, not_false_eq_true, not_true_eq_false,
        false_implies, true_implies, true_and, and_true]
      have hne : tag ++ "-" ++ formatD n ≠ "" := by
        intro h
        have := congrArg String.length h
        simp only [String.length_append] at this
        have h0 : tag.length ≠ 0 := by
          intro h0
          apply ht
          cases tag with
          | mk d =>
            simp only [String.length] at h0
            rw [List.length_eq_zero] at h0
            subst h0
            rfl
        simp at this
        omega
      refine ⟨iff_true_intro hne, fun _ => ?_⟩
      simp only [String.data_append, List.append_assoc]
      exact List.prefix_append _ _

/-- C4: when the repository of the file resolves and its HEAD reference resolves to a direct
target id, `GetCurrentHash (file, aShort = false)` returns the hexadecimal rendering of that
id: 40 characters, each a lowercase hexadecimal digit. -/
theorem GetCurrentHash_full_hash (w : World) (file : String) (s : LibState)
    (repo : git_repository) (head : git_reference) (oid : git_oid)
    (hrepo : (w s.clock).GetRepositoryForFile file = some repo)
    (hhead : (w (s.clock + 1)).git_repository_head repo = some head)
    (hoid : head.target = some oid) :
    (GetCurrentHash w file false s).1 = ⟨git_oid_fmt oid⟩ ∧
    (GetCurrentHash w file false s).1.length = 40 ∧
    ∀ c ∈ (GetCurrentHash w file false s).1.data, c ∈ "0123456789abcdef".data := by
  have hv : (GetCurrentHash w file false s).1 = ⟨git_oid_fmt oid⟩ := by
    rw [GetCurrentHash_value, hrepo]
    simp only [hhead, hoid, git_oid_tostr, Bool.false_eq_true, if_false]
    rw [List.take_of_length_le (by rw [git_oid_fmt_length])]
  rw [hv]
  exact ⟨rfl, git_oid_fmt_length oid, git_oid_fmt_hex oid⟩

/-- Instance of C4: in the linear repository HEAD is commit 4, whose id renders as `04` followed
by 38 zeros. -/
theorem GetCurrentHash_full_hash_witness :
    (GetCurrentHash (fun _ => linearLib) "board.kicad_pro" false idle).1
      = "0400000000000000000000000000000000000000" ∧
    (GetCurrentHash (fun _ => linearLib) "board.kicad_pro" false idle).1.length = 40 :=
  have h := GetCurrentHash_full_hash (fun _ => linearLib) "board.kicad_pro" idle 7
    ⟨some (oidOfNat 4)⟩ (oidOfNat 4) (by decide) (by decide) rfl
  ⟨h.1.trans (by decide), h.2.1⟩

/-- C10: the short hash is the first 7 characters of the full hash, and the short form is
`no hash` exactly when the full form is; a hash that is not `no hash` has 7 characters in the
short form and 40 in the full form. -/
theorem short_hash_is_prefix_of_full (w : World) (file : String) (s : LibState) :
    (GetCurrentHash w file true s).1 = ⟨(GetCurrentHash w file false s).1.data.take 7⟩ ∧
    ((GetCurrentHash w file true s).1 = "no hash" ↔
      (GetCurrentHash w file false s).1 = "no hash") ∧
    ((GetCurrentHash w file false s).1 ≠ "no hash" →
      (GetCurrentHash w file true s).1.length = 7 ∧
      (GetCurrentHash w file false s).1.length = 40) := by
  rw [GetCurrentHash_value w file true s, GetCurrentHash_value w file false s]
  have key : ∀ oid : git_oid,
      git_oid_tostr 8 oid = ⟨(git_oid_tostr 41 oid).data.take 7⟩ ∧
      (git_oid_tostr 8 oid = "no hash" ↔ git_oid_tostr 41 oid = "no hash") ∧
      (git_oid_tostr 8 oid).length = 7 ∧ (git_oid_tostr 41 oid).length = 40 := by
    intro oid
    refine ⟨?_, ?_, ?_, ?_⟩
    · simp only [git_oid_tostr, List.take_take]
      rfl
    · exact iff_of_false (git_oid_tostr_ne_no_hash 8 oid) (git_oid_tostr_ne_no_hash 41 oid)
    · simp [git_oid_tostr, String.length, git_oid_fmt_length]
    · simp [git_oid_tostr, String.length, git_oid_fmt_length]
  cases (w s.clock).GetRepositoryForFile file with
  | none => simp
  | some repo =>
    simp only
    cases (w (s.clock + 1)).git_repository_head repo with
    | none => simp
    | some head =>
      simp only
      cases head.target with
      | none => simp
      | some oid =>
        simp only [if_true, Bool.false_eq_true, if_false]
        exact ⟨(key oid).1, (key oid).2.1, fun _ => (key oid).2.2⟩

/-- C7: every query opens and closes its own handles.  On every execution path (every
combination of library answers) of `GetCurrentHash`, `GetLatestTag`,
`GetCommitsSinceLatestTag` and `GetGitRevision` the handles open after the call are those open
before it, each handle acquired by the call was released exactly once, and nothing else was
released. -/
theorem queries_release_what_they_acquire (w : World) (file : String) (aShort : Bool)
    (s : LibState) :
    HandlesBalanced s (GetCurrentHash w file aShort s).2 ∧
    HandlesBalanced s (GetLatestTag w file s).2 ∧
    HandlesBalanced s (GetCommitsSinceLatestTag w file s).2 ∧
    HandlesBalanced s (GetGitRevision w file s).2 :=
  ⟨(GetCurrentHash_bal w file aShort s).handlesBalanced,
    (GetLatestTag_bal w file s).handlesBalanced,
    (GetCommitsSinceLatestTag_bal w file s).handlesBalanced,
    (GetGitRevision_bal w file s).handlesBalanced⟩

/-- C5: every failed library step maps to the default output of the operation.  When the
repository of the file cannot be resolved, `GetCurrentHash` returns `no hash`, `GetLatestTag`
the empty string, `GetCommitsSinceLatestTag` 0 and `GetGitRevision` the empty string.  With a
repository, `GetCurrentHash` returns `no hash` when reading HEAD fails or HEAD has no direct
target, `GetLatestTag` returns the empty string when the tag list cannot be read, and
`GetCommitsSinceLatestTag` returns 0 when there is no latest tag, reading HEAD fails, the tag
reference lookup fails, either target id is null, the walker cannot be created, or the tag
object lookup fails.  Each answer is taken at the request index at which the query asks. -/
theorem failed_steps_give_defaults (w : World) (file : String) (aShort : Bool) (s : LibState) :
    ((w s.clock).GetRepositoryForFile file = none →
      (GetCurrentHash w file aShort s).1 = "no hash" ∧ (GetLatestTag w file s).1 = "" ∧
      (GetCommitsSinceLatestTag w file s).1 = 0 ∧ (GetGitRevision w file s).1 = "") ∧
    (∀ repo, (w s.clock).GetRepositoryForFile file = some repo →
      ((w (s.clock + 1)).git_repository_head repo = none →
        (GetCurrentHash w file aShort s).1 = "no hash") ∧
      (∀ head, (w (s.clock + 1)).git_repository_head repo = some head → head.target = none →
        (GetCurrentHash w file aShort s).1 = "no hash") ∧
      ((w (s.clock + 1)).git_tag_list repo = none → (GetLatestTag w file s).1 = "") ∧
      ((GetLatestTag w file (s.opened .repository)).1 = "" →
        (GetCommitsSinceLatestTag w file s).1 = 0) ∧
      (∀ tag t, (GetLatestTag w file (s.opened .repository)).1 = tag →
        (GetLatestTag w file (s.opened .repository)).2.clock = t →
        ((w t).git_repository_head repo = none → (GetCommitsSinceLatestTag w file s).1 = 0) ∧
        (∀ head_ref, (w t).git_repository_head repo = some head_ref →
          ((w (t + 1)).git_reference_lookup repo ("refs/tags/" ++ tag) = none →
            (GetCommitsSinceLatestTag w file s).1 = 0) ∧
          (∀ tag_ref, (w (t + 1)).git_reference_lookup repo ("refs/tags/" ++ tag) = some tag_ref →
            (head_ref.target = none → (GetCommitsSinceLatestTag w file s).1 = 0) ∧
            (tag_ref.target = none → (GetCommitsSinceLatestTag w file s).1 = 0) ∧
            ((w (t + 2)).git_revwalk_new repo = false →
              (GetCommitsSinceLatestTag w file s).1 = 0) ∧
            (∀ tag_oid, tag_ref.target = some tag_oid → (w (t + 4)).odb repo tag_oid = none →
              (GetCommitsSinceLatestTag w file s).1 = 0))))) := by
  refine ⟨fun hrepo => ⟨?_, ?_, ?_, ?_⟩, fun repo hrepo => ⟨?_, ?_, ?_, ?_, ?_⟩⟩
  · rw [GetCurrentHash_value, hrepo]
  · unfold GetLatestTag
    simp [GetRepositoryForFile, GetGitBackend, hrepo, LibState.answer]
  · rw [GetCommitsSinceLatestTag_eq, hrepo]
  · have h : (GetLatestTag w file s).1 = "" := by
      unfold GetLatestTag
      simp [GetRepositoryForFile, GetGitBackend, hrepo, LibState.answer]
    unfold GetGitRevision
    generalize GetLatestTag w file s = r at h
    obtain ⟨tag, s1⟩ := r
    simp only at h
    simp [h]
  · intro hhead
    rw [GetCurrentHash_value, hrepo]
    simp only [hhead]
  · intro head hhead htarget
    rw [GetCurrentHash_value, hrepo]
    simp only [hhead, htarget]
  · intro hlist
    unfold GetLatestTag
    simp [GetRepositoryForFile, GetGitBackend, hrepo, LibState.answer, git_tag_list,
      LibState.opened, hlist]
  · intro htag
    rw [GetCommitsSinceLatestTag_eq, hrepo]
    simp only [htag, if_true]
  · intro tag t htag ht
    rw [GetCommitsSinceLatestTag_eq, hrepo]
    simp only [htag, ht]
    refine ⟨fun hhead => ?_, fun head_ref hhead => ⟨fun href => ?_, fun tag_ref href =>
      ⟨fun h => ?_, fun h => ?_, fun h => ?_, fun tag_oid htoid hobj => ?_⟩⟩⟩
    · simp only [hhead, ite_self]
    · simp only [hhead, href, ite_self]
    · simp only [hhead, href, h, ite_self]
    · simp only [hhead, href, h]
      cases head_ref.target <;> simp
    · simp only [hhead, href, h]
      cases head_ref.target <;> cases tag_ref.target <;> simp
    · simp only [hhead, href, htoid]
      cases head_ref.target <;> simp [hobj]

/-- Instance of C5 on its deepest step: in the flaky world the latest tag `v1` is found and
HEAD, the tag reference, both target ids and the walker are obtained, but the lookup of the tag
object at request 12 fails, and `GetCommitsSinceLatestTag` returns 0. -/
theorem failed_steps_give_defaults_witness :
    (GetLatestTag flakyWorld "board.kicad_pro" (idle.opened .repository)).1 = "v1" ∧
    (flakyWorld 12).odb 7 (oidOfNat 2) = none ∧
    (GetCommitsSinceLatestTag flakyWorld "board.kicad_pro" idle).1 = 0 :=
  ⟨by decide, by decide,
    ((((failed_steps_give_defaults flakyWorld "board.kicad_pro" false idle).2 7
      (by decide)).2.2.2.2 "v1" 8 (by decide) (by decide)).2 ⟨some (oidOfNat 4)⟩
      (by decide)).2 ⟨some (oidOfNat 2)⟩ (by decide) |>.2.2.2 (oidOfNat 2) rfl (by decide)⟩

/-- C8: exact selection rule of `GetLatestTag` on a repository whose tag list could be read.
The result is the empty string when no tag resolves to a commit with commit time above 0.
Otherwise it is a tag of the list that resolves to a commit with a positive commit time `t`,
every tag enumerated before it that resolves to a commit has a commit time below `t`, and
every tag enumerated after it that resolves to a commit has a commit time at most `t`; tags
that do not resolve to a commit play no part. -/
theorem GetLatestTag_selection_rule (lib : GitLib) (file : String) (s : LibState)
    (repo : git_repository) (names : List String)
    (hrepo : lib.GetRepositoryForFile file = some repo)
    (hlist : lib.git_tag_list repo = some names) :
    ((∀ n ∈ names, ∀ t, tagCommitTime lib repo n = some t → t ≤ 0) →
      (GetLatestTag (fun _ => lib) file s).1 = "") ∧
    ((∃ n ∈ names, ∃ t, tagCommitTime lib repo n = some t ∧ 0 < t) →
      ∃ pre post t, names = pre ++ (GetLatestTag (fun _ => lib) file s).1 :: post ∧
        tagCommitTime lib repo (GetLatestTag (fun _ => lib) file s).1 = some t ∧ 0 < t ∧
        (∀ n ∈ pre, ∀ u, tagCommitTime lib repo n = some u → u < t) ∧
        (∀ n ∈ post, ∀ u, tagCommitTime lib repo n = some u → u ≤ t)) := by
  rw [GetLatestTag_value lib file s repo names hrepo hlist]
  rcases foldl_tagStep_spec lib repo names (0, "") with
    ⟨heq, hall⟩ | ⟨pre, post, t, tag, hfold, hdec, h2, hlt, hpre, hpost⟩
  · refine ⟨fun _ => by rw [heq], ?_⟩
    rintro ⟨n, hn, t, ht, hpos⟩
    have := hall n hn t ht
    simp only at this
    omega
  · rw [hfold]
    refine ⟨fun hall => ?_, fun _ => ⟨pre, post, t, hdec, h2, hlt, hpre, hpost⟩⟩
    have hmem : tag ∈ names := by
      rw [hdec]
      simp
    have := hall _ hmem t h2
    simp only at hlt
    omega

/-- Instance of C8: in the linear repository the tags `v0` (annotated, commit time 10) and `v1`
(commit time 20) are enumerated in this order and the result is `v1`. -/
theorem GetLatestTag_selection_rule_witness :
    (GetLatestTag (fun _ => linearLib) "board.kicad_pro" idle).1 = "v1" ∧
    ∃ pre post t, ["v0", "v1"] = pre ++ (GetLatestTag (fun _ => linearLib) "board.kicad_pro" idle).1 :: post ∧
      tagCommitTime linearLib 7 (GetLatestTag (fun _ => linearLib) "board.kicad_pro" idle).1 = some t ∧
      0 < t ∧
      (∀ n ∈ pre, ∀ u, tagCommitTime linearLib 7 n = some u → u < t) ∧
      (∀ n ∈ post, ∀ u, tagCommitTime linearLib 7 n = some u → u ≤ t) :=
  ⟨by decide,
    (GetLatestTag_selection_rule linearLib "board.kicad_pro" idle 7 ["v0", "v1"]
      (by decide) (by decide)).2 ⟨"v1", by decide, 20, by decide, by decide⟩⟩

/-- C2, at the failing input: the claim asks that, on a repository whose tag list is non-empty
and in which every tag resolves to a commit, `GetLatestTag` return a tag of the repository of
greatest commit time.  The repository `epochLib` has the tag list `v1`, whose tag resolves to a
commit of commit time 0; `latest_time` starts at 0, the comparison `commit_time > latest_time`
is false, and `GetLatestTag` returns the empty string, which is not a tag of the repository. -/
theorem GetLatestTag_epoch_tag_not_found :
    epochLib.GetRepositoryForFile "board.kicad_pro" = some 7 ∧
    epochLib.git_tag_list 7 = some ["v1"] ∧
    tagCommitTime epochLib 7 "v1" = some 0 ∧
    (GetLatestTag (fun _ => epochLib) "board.kicad_pro" idle).1 = "" ∧
    (GetLatestTag (fun _ => epochLib) "board.kicad_pro" idle).1 ∉ ["v1"] := by
  decide

/-- C3, amended: on a repository in which a latest tag exists and every step up to the counting
loop succeeds, `GetCommitsSinceLatestTag` returns the number of commits the walker yields from
HEAD before it yields the commit the tag points to (directly or through an annotated tag),
provided these are fewer than 2^31: 0 when the tagged commit is yielded first, as when HEAD is
the tagged commit, and `n` when `n` other commits are yielded first, as when HEAD is `n`
commits ahead of the tagged commit on a linear history. -/
theorem GetCommitsSinceLatestTag_counts_until_tag (lib : GitLib) (file : String) (s : LibState)
    (repo : git_repository) (tag : String) (head_ref tag_ref : git_reference)
    (head_oid tag_oid : git_oid) (tag_obj : git_object) (pre post : List git_oid)
    (hrepo : lib.GetRepositoryForFile file = some repo)
    (htag : (GetLatestTag (fun _ => lib) file s).1 = tag) (hne : tag ≠ "")
    (hhead : lib.git_repository_head repo = some head_ref)
    (hhoid : head_ref.target = some head_oid)
    (href : lib.git_reference_lookup repo ("refs/tags/" ++ tag) = some tag_ref)
    (htoid : tag_ref.target = some tag_oid)
    (hwalker : lib.git_revwalk_new repo = true)
    (hobj : lib.odb repo tag_oid = some tag_obj)
    (hwalk : lib.git_revwalk repo head_oid = pre ++ tagTargetId tag_obj tag_oid :: post)
    (hpre : tagTargetId tag_obj tag_oid ∉ pre)
    (hlen : pre.length < 2 ^ 31) :
    (GetCommitsSinceLatestTag (fun _ => lib) file s).1 = pre.length := by
  rw [GetCommitsSinceLatestTag_value lib file s repo tag head_ref tag_ref head_oid tag_oid
    tag_obj hrepo htag hne hhead hhoid href htoid hwalker hobj, hwalk,
    ← countLoop_int32 _ _ 0 (by decide), countLoop_append _ _ _ _ hpre, zero_add]
  exact wrap32_of_lt _ (by omega) (by exact_mod_cast hlen)

/-- Instance of C3, amended: in the linear repository HEAD (commit 4) is two commits ahead of
the commit tagged `v1` (commit 2) and the result is 2, the number of commits reachable from
HEAD and not from the tagged commit. -/
theorem GetCommitsSinceLatestTag_counts_until_tag_witness :
    (GetCommitsSinceLatestTag (fun _ => linearLib) "board.kicad_pro" idle).1 = 2 ∧
    commitsAhead linearLib 7 4 (oidOfNat 4) (oidOfNat 2) = 2 :=
  ⟨GetCommitsSinceLatestTag_counts_until_tag linearLib "board.kicad_pro" idle 7 "v1"
    ⟨some (oidOfNat 4)⟩ ⟨some (oidOfNat 2)⟩ (oidOfNat 4) (oidOfNat 2)
    (.commit 20 [oidOfNat 1]) [oidOfNat 4, oidOfNat 3] [oidOfNat 1]
    (by decide) (by decide) (by decide) (by decide) rfl (by decide) rfl (by decide)
    (by decide) (by decide) (by decide) (by decide), by decide⟩

/-- C3 as stated fails: in the repository `mergeLib` the latest tag `v1` is on commit 3, an
ancestor of HEAD (commit 4, the merge of 3 and 2); the walker yields the commits reachable from
HEAD, each once, newest first; two commits (4 and 2) are reachable from HEAD and not from the
tagged commit, and `GetCommitsSinceLatestTag` returns 1. -/
theorem GetCommitsSinceLatestTag_counterexample :
    (GetLatestTag (fun _ => mergeLib) "board.kicad_pro" idle).1 = "v1" ∧
    mergeLib.git_reference_lookup 7 "refs/tags/v1" = some ⟨some (oidOfNat 3)⟩ ∧
    mergeLib.git_repository_head 7 = some ⟨some (oidOfNat 4)⟩ ∧
    oidOfNat 3 ∈ reachableWithin mergeLib 7 4 (oidOfNat 4) ∧
    mergeLib.git_revwalk 7 (oidOfNat 4) = (reachableWithin mergeLib 7 4 (oidOfNat 4)).dedup ∧
    (mergeLib.git_revwalk 7 (oidOfNat 4)).map (fun c => (mergeLib.odb 7 c).map git_commit_time)
      = [some 40, some 30, some 20, some 10] ∧
    commitsAhead mergeLib 7 4 (oidOfNat 4) (oidOfNat 3) = 2 ∧
    (GetCommitsSinceLatestTag (fun _ => mergeLib) "board.kicad_pro" idle).1 = 1 := by
  decide

/-- C9, amended: when every step up to the counting loop succeeds, the walk from HEAD never
yields the id the latest tag points to, and the walker yields fewer than 2^31 commits,
`GetCommitsSinceLatestTag` returns the total number of commits the walker yields; if that
number is not 0, `GetGitRevision` returns the tag followed by `-` and that number. -/
theorem GetCommitsSinceLatestTag_counts_whole_walk (lib : GitLib) (file : String)
    (s : LibState) (repo : git_repository) (tag : String) (head_ref tag_ref : git_reference)
    (head_oid tag_oid : git_oid) (tag_obj : git_object)
    (hrepo : lib.GetRepositoryForFile file = some repo)
    (htag : (GetLatestTag (fun _ => lib) file s).1 = tag) (hne : tag ≠ "")
    (hhead : lib.git_repository_head repo = some head_ref)
    (hhoid : head_ref.target = some head_oid)
    (href : lib.git_reference_lookup repo ("refs/tags/" ++ tag) = some tag_ref)
    (htoid : tag_ref.target = some tag_oid)
    (hwalker : lib.git_revwalk_new repo = true)
    (hobj : lib.odb repo tag_oid = some tag_obj)
    (hnot : tagTargetId tag_obj tag_oid ∉ lib.git_revwalk repo head_oid)
    (hlen : (lib.git_revwalk repo head_oid).length < 2 ^ 31) :
    (GetCommitsSinceLatestTag (fun _ => lib) file s).1 = (lib.git_revwalk repo head_oid).length ∧
    (lib.git_revwalk repo head_oid ≠ [] →
      (GetGitRevision (fun _ => lib) file s).1
        = tag ++ "-" ++ Nat.repr (lib.git_revwalk repo head_oid).length) := by
  have hcount : ∀ s', (GetCommitsSinceLatestTag (fun _ => lib) file s').1
      = (lib.git_revwalk repo head_oid).length := by
    intro s'
    rw [GetCommitsSinceLatestTag_value lib file s' repo tag head_ref tag_ref head_oid tag_oid
      tag_obj hrepo ((GetLatestTag_value_indep lib file s' s).trans htag) hne hhead hhoid href
      htoid hwalker hobj,
      ← countLoop_int32 _ _ 0 (by decide), countLoop_not_mem _ _ _ hnot, zero_add]
    exact wrap32_of_lt _ (by omega) (by exact_mod_cast hlen)
  refine ⟨hcount s, fun hwalk => ?_⟩
  rw [GetGitRevision_value lib file s tag _ htag hne hcount]
  have hpos : ((lib.git_revwalk repo head_oid).length : Int) ≠ 0 := by
    simpa using hwalk
  rw [if_neg hpos]
  rfl

/-- Instance of C9, amended: in the repository `orphanLib` the tagged commit is not in the
history of HEAD, which has two commits; the count is 2 and the revision is `v1-2`. -/
theorem GetCommitsSinceLatestTag_counts_whole_walk_witness :
    (GetCommitsSinceLatestTag (fun _ => orphanLib) "board.kicad_pro" idle).1 = 2 ∧
    (GetGitRevision (fun _ => orphanLib) "board.kicad_pro" idle).1 = "v1-2" :=
  have h := GetCommitsSinceLatestTag_counts_whole_walk orphanLib "board.kicad_pro" idle 7 "v1"
    ⟨some (oidOfNat 4)⟩ ⟨some (oidOfNat 2)⟩ (oidOfNat 4) (oidOfNat 2) (.commit 20 [])
    (by decide) (by decide) (by decide) (by decide) rfl (by decide) rfl (by decide)
    (by decide) (by decide) (by decide)
  ⟨h.1.trans (by decide), (h.2 (by decide)).trans (by decide)⟩

/-- C9 as stated fails: in the repository `hugeLib` the walk from HEAD yields 2^31 commits,
none of which is the commit of the latest tag `v1`, and `GetCommitsSinceLatestTag`, whose
counter is an `int`, returns -2147483648 instead of 2147483648. -/
theorem GetCommitsSinceLatestTag_whole_walk_counterexample :
    (GetLatestTag (fun _ => hugeLib) "board.kicad_pro" idle).1 = "v1" ∧
    hugeLib.git_reference_lookup 7 "refs/tags/v1" = some ⟨some (oidOfNat 2)⟩ ∧
    hugeLib.odb 7 (oidOfNat 2) = some (.commit 20 []) ∧
    hugeLib.git_repository_head 7 = some ⟨some (oidOfNat 4)⟩ ∧
    oidOfNat 2 ∉ hugeLib.git_revwalk 7 (oidOfNat 4) ∧
    (hugeLib.git_revwalk 7 (oidOfNat 4)).length = 2147483648 ∧
    (GetCommitsSinceLatestTag (fun _ => hugeLib) "board.kicad_pro" idle).1 = -2147483648 := by
  have hw : hugeLib.git_revwalk 7 (oidOfNat 4) = hugeWalk := rfl
  refine ⟨by decide, by decide, by decide, by decide, ?_, ?_, ?_⟩
  · rw [hw]
    exact not_mem_hugeWalk
  · rw [hw, hugeWalk_length]
    rfl
  rw [GetCommitsSinceLatestTag_value hugeLib "board.kicad_pro" idle 7 "v1"
    ⟨some (oidOfNat 4)⟩ ⟨some (oidOfNat 2)⟩ (oidOfNat 4) (oidOfNat 2) (.commit 20 [])
    (by decide) (by decide) (by decide) (by decide) rfl (by decide) rfl (by decide)
    (by decide),
    ← countLoop_int32 _ _ 0 (by decide), hw]
  have h := countLoop_not_mem (oidOfNat 2) hugeWalk 0 not_mem_hugeWalk
  rw [hugeWalk_length] at h
  exact h.trans (by decide)

end KIGIT
